import Mathlib

/-
  Verification development for the pixel-pushup image-processing service.

  The embedding follows the three source files:
    - main.py    : the /pushup request handler (batch loop, mode dispatch,
                   per-image validation, ZIP packing, S3 key construction)
    - helpers.py : validate_s3_prefix, validate_s3_bucket_name,
                   upload_image_to_s3, resize_image
    - config.py  : environment configuration (S3_BUCKET_NAME)

  External collaborators (Flask, boto3, the Pillow imaging library) are
  modelled at their interface: an uploaded file is a record of its name,
  decodability and decoded dimensions; an S3 put or a ZIP writestr is a
  trace event.  The resize dimension arithmetic lives inside the Pillow
  library (the repository only calls image.thumbnail), so it is modelled
  from the spec: scale = min(boxW/origW, boxH/origH) capped at 1, with
  truncating rounding.
-/

deriving instance DecidableEq for Except

namespace PixelPushup

/-! ## String utilities mirroring the Python standard library -/

/-- Model of str.lower for the ASCII strings the handler compares
    (processing mode, export type). -/
def strLower (s : String) : String :=
  ⟨s.data.map Char.toLower⟩

/-- Model of str.strip: drop leading and trailing whitespace. -/
def strStrip (s : String) : String :=
  ⟨((s.data.dropWhile Char.isWhitespace).reverse.dropWhile Char.isWhitespace).reverse⟩

/-- Index of the last occurrence of a character, counting from offset i
    (auxiliary recursion for os.path functionality). -/
def lastIdxOfAux : List Char → Char → Nat → Option Nat
  | [], _, _ => none
  | x :: xs, c, i =>
    match lastIdxOfAux xs c (i + 1) with
    | some r => some r
    | none => if x = c then some i else none

/-- Index of the last occurrence of a character in a list, if any. -/
def lastIdxOf (cs : List Char) (c : Char) : Option Nat :=
  lastIdxOfAux cs c 0

/-- Model of os.path.splitext on POSIX: split at the last dot, provided it
    lies after the last path separator and the basename does not consist of
    leading dots up to that point (so ".bashrc" has no extension). -/
def splitext (p : String) : String × String :=
  let cs := p.data
  match lastIdxOf cs '.' with
  | none => (p, "")
  | some d =>
    let start :=
      match lastIdxOf cs '/' with
      | none => 0
      | some s => s + 1
    if start ≤ d && ((cs.drop start).take (d - start)).any (fun c => c ≠ '.') then
      (⟨cs.take d⟩, ⟨cs.drop d⟩)
    else
      (p, "")

/-- Character class of the regex [\w\-\s] used by main.py to validate the
    filename stem (ASCII reading of \w). -/
def isWordClassChar (c : Char) : Bool :=
  c.isAlphanum || c = '_' || c = '-' || c.isWhitespace

/-- Model of re.match applied to the stem with pattern given in main.py:
    one or more characters from [\w\-\s]. -/
def validFilename (s : String) : Bool :=
  !(s == "") && s.data.all isWordClassChar

/-- Model of helpers.validate_s3_prefix: re.match with one or more
    characters from [\w\-\/]. -/
def validate_s3_prefix (s : String) : Bool :=
  !(s == "") && s.data.all (fun c => c.isAlphanum || c = '_' || c = '-' || c = '/')

/-- Model of helpers.validate_s3_bucket_name: 3 to 63 characters from
    [a-z0-9.-]. -/
def validate_s3_bucket_name (s : String) : Bool :=
  3 ≤ s.length && s.length ≤ 63 &&
    s.data.all (fun c => c.isLower || c.isDigit || c = '.' || c = '-')

/-- Model of posixpath.join on two components. -/
def posixJoin2 (a b : String) : String :=
  if ['/'].isPrefixOf b.data then b
  else if a = "" || ['/'].isSuffixOf a.data then a ++ b
  else a ++ "/" ++ b

/-- Model of posixpath.join on three components, as used for S3 keys. -/
def posixJoin3 (a b c : String) : String :=
  posixJoin2 (posixJoin2 a b) c

/-! ## The resize model

The repository delegates the dimension arithmetic to the imaging library
(image.thumbnail); that code is not part of the repository.
Modelled from the spec: scale = min(boxW/origW, boxH/origH) capped at 1.0,
newW = floor(origW*scale), newH = floor(origH*scale). -/

/-- Modelled from the spec: the thumbnail scale factor for a source of
    dimensions W x H fit into a bounding box bw x bh, capped at 1. -/
def thumbScale (W H bw bh : Nat) : ℚ :=
  min (min ((bw : ℚ) / (W : ℚ)) ((bh : ℚ) / (H : ℚ))) 1

/-- Modelled from the spec, stated verbatim over the rationals: the
    derivative dimensions are the floors of each original dimension times
    the capped scale. -/
def specThumbDims (W H bw bh : Nat) : Nat × Nat :=
  (⌊(W : ℚ) * thumbScale W H bw bh⌋₊, ⌊(H : ℚ) * thumbScale W H bw bh⌋₊)

/-- Modelled from the spec: the derivative dimensions, computed with
    natural-number arithmetic (truncating division is the floor); proved
    below to agree with the verbatim rational form specThumbDims. -/
def thumbnailDims (W H bw bh : Nat) : Nat × Nat :=
  if bw * H ≤ bh * W then
    (min W bw, min H (H * bw / W))
  else
    (min W (W * bh / H), min H bh)

/-- A decoded in-memory image: only the data the claims depend on. -/
structure PILImage where
  width : Nat
  height : Nat
deriving Repr, DecidableEq

/-- Model of helpers.resize_image: thumbnail the image into the bounding
    box (the Python function mutates its argument and returns it; heap
    aliasing is modelled separately below). -/
def resize_image (img : PILImage) (size : Nat × Nat) : PILImage :=
  { width := (thumbnailDims img.width img.height size.1 size.2).1,
    height := (thumbnailDims img.width img.height size.1 size.2).2 }

/-! ## Encoding parameter tables -/

/-- Keyword arguments passed to image.save in the local branch of main.py:
    lossless for webp, nothing otherwise. -/
def local_save_kwargs (export_type : String) : List (String × String) :=
  if export_type = "webp" then [("lossless", "True")] else []

/-- Keyword arguments passed to image.save in helpers.upload_image_to_s3:
    lossless for webp, nothing otherwise. -/
def s3_save_kwargs (export_type : String) : List (String × String) :=
  if export_type = "webp" then [("lossless", "True")] else []

/-- The static per-format parameter table stated by the spec (section 4.3),
    kept for comparison against the code's tables. -/
def specEncodingParams (fmt : String) : List (String × String) :=
  if fmt = "jpeg" then [("quality", "95"), ("progressive", "True"), ("optimize", "True")]
  else if fmt = "png" then [("compress_level", "6"), ("optimize", "True")]
  else if fmt = "webp" then [("quality", "90"), ("lossless", "True")]
  else []

/-! ## The request pipeline (main.py, pushup handler)

An uploaded file is modelled by its name and by what the imaging library
reports about its payload (decodable or not, and the decoded dimensions).
Sink side effects (ZIP writestr calls, S3 put_object calls) are trace
events, emitted in program order; an early return keeps the events emitted
before it. -/

/-- One uploaded file of the batch, as the handler observes it. -/
structure ImageFile where
  filename : String
  decodable : Bool
  width : Nat
  height : Nat
deriving Repr, DecidableEq

/-- The request parameters the handler reads, plus the environment facts it
    consults (configured bucket name, head_bucket outcome). -/
structure Request where
  images : List ImageFile
  processingMode : String
  exportType : String
  s3Pfx : String
  bucketName : String
  bucketExists : Bool
deriving Repr, DecidableEq

/-- A write issued to one of the two sinks.  Constructors record the
    components the source interpolates into the entry name or S3 key;
    the s3 constructors also record the format the bytes were re-encoded
    in before the put (the export type passed to image.save). -/
inductive SinkWrite where
  | zipOriginal (stem ext : String)
  | zipResized (stem sizeName exportFmt : String)
  | s3Original (bucket pfx stem ext exportFmt : String)
  | s3Resized (bucket pfx stem sizeName exportFmt : String)
deriving Repr, DecidableEq

/-- The ZIP entry name produced by writestr for a ZIP-sink write. -/
def SinkWrite.zipEntryName : SinkWrite → Option String
  | .zipOriginal stem ext => some (stem ++ "/original" ++ ext)
  | .zipResized stem sizeName exportFmt => some (stem ++ "/" ++ sizeName ++ "." ++ exportFmt)
  | _ => none

/-- The S3 object key of an object-store write (posixpath.join of the
    validated prefix, the stem and the leaf filename). -/
def SinkWrite.s3Key : SinkWrite → Option String
  | .s3Original _ pfx stem ext _ => some (posixJoin3 pfx stem ("original" ++ ext))
  | .s3Resized _ pfx stem sizeName exportFmt =>
      some (posixJoin3 pfx stem (sizeName ++ "." ++ exportFmt))
  | _ => none

/-- The ContentType header of an object-store write. -/
def SinkWrite.s3ContentType : SinkWrite → Option String
  | .s3Original _ _ _ _ exportFmt => some ("image/" ++ exportFmt)
  | .s3Resized _ _ _ _ exportFmt => some ("image/" ++ exportFmt)
  | _ => none

/-- Whether the write is an S3 put. -/
def SinkWrite.isS3Put : SinkWrite → Bool
  | .s3Original _ _ _ _ _ => true
  | .s3Resized _ _ _ _ _ => true
  | _ => false

/-- The ZIP entry names of a trace, in order. -/
def zipNames (ws : List SinkWrite) : List String :=
  ws.filterMap SinkWrite.zipEntryName

/-- The error responses the handler can return before finishing. -/
inductive ApiError where
  | imagesNotFound
  | invalidProcessingMode
  | invalidExportType
  | s3PrefixMissing
  | invalidS3Prefix
  | bucketNameNotSet
  | bucketNotFound
  | invalidImageFile (filename : String)
  | invalidFilename (stem : String)
  | unsupportedOriginalFormat (ext : String)
deriving Repr, DecidableEq

/-- The successful response: the ZIP archive stream in local mode, the
    JSON summary in aws mode. -/
inductive PushupResponse where
  | zipArchive
  | jsonOk
deriving Repr, DecidableEq

/-- The sizes table of main.py: the six tiers and their square boxes. -/
def sizes : List (String × Nat × Nat) :=
  [("t", (100, 100)), ("s", (300, 300)), ("m", (500, 500)),
   ("l", (800, 800)), ("xl", (1000, 1000)), ("xxl", (1200, 1200))]

/-- The passthrough extension set checked in the local branch of main.py. -/
def isSupportedExt (ext : String) : Bool :=
  ext == ".png" || ext == ".webp" || ext == ".jpg" || ext == ".jpeg"

/-- The export types accepted by the handler. -/
def isValidExport (e : String) : Bool :=
  e == "png" || e == "webp" || e == "jpg" || e == "jpeg"

/-- Processing of one image of the batch: decode check, stem validation,
    then (local) extension check and ZIP writes, or (aws) S3 puts; the
    tier writes follow the original in both modes.  Mirrors one iteration
    of the for loop of main.py lines 129-245. -/
def processImage (mode et pfx bkt : String) (f : ImageFile) :
    Except ApiError (List SinkWrite) :=
  if !f.decodable then .error (.invalidImageFile f.filename)
  else
    let stem := (splitext f.filename).1
    if ! validFilename stem then .error (.invalidFilename stem)
    else
      let ext := strLower (splitext f.filename).2
      if mode = "local" then
        if !isSupportedExt ext then .error (.unsupportedOriginalFormat ext)
        else
          .ok (SinkWrite.zipOriginal stem ext ::
            sizes.map (fun s => SinkWrite.zipResized stem s.1 et))
      else
        .ok (SinkWrite.s3Original bkt pfx stem ext et ::
          sizes.map (fun s => SinkWrite.s3Resized bkt pfx stem s.1 et))

/-- The batch loop: processes images in order; a per-image error returns
    immediately, keeping the writes already issued for earlier images. -/
def processLoop (mode et pfx bkt : String) :
    List ImageFile → Except ApiError Unit × List SinkWrite
  | [] => (.ok (), [])
  | f :: rest =>
    match processImage mode et pfx bkt f with
    | .error e => (.error e, [])
    | .ok ws =>
      let r := processLoop mode et pfx bkt rest
      (r.1, ws ++ r.2)

/-- The processing mode after the .lower() normalization. -/
def modeOf (req : Request) : String := strLower req.processingMode

/-- The export type after .lower() and the jpg-to-jpeg normalization. -/
def etOf (req : Request) : String :=
  let e := strLower req.exportType
  if e = "jpg" then "jpeg" else e

/-- The S3 prefix actually passed to the loop: the stripped form value in
    aws mode, unused (empty) in local mode. -/
def pfxOf (req : Request) : String :=
  if modeOf req = "aws" then strStrip req.s3Pfx else ""

/-- Runs the batch loop and assembles the success response (archive stream
    in local mode, JSON in aws mode). -/
def finishLoop (req : Request) : Except ApiError PushupResponse × List SinkWrite :=
  let r := processLoop (modeOf req) (etOf req) (pfxOf req) req.bucketName req.images
  match r.1 with
  | .error e => (.error e, r.2)
  | .ok _ =>
    (.ok (if modeOf req = "local" then .zipArchive else .jsonOk), r.2)

/-- The /pushup handler: global request checks, aws prechecks, then the
    batch loop.  Mirrors main.py lines 50-267. -/
def pushup (req : Request) : Except ApiError PushupResponse × List SinkWrite :=
  if req.images.isEmpty then (.error .imagesNotFound, [])
  else if !(modeOf req == "local" || modeOf req == "aws") then
    (.error .invalidProcessingMode, [])
  else if !isValidExport (strLower req.exportType) then
    (.error .invalidExportType, [])
  else if modeOf req = "aws" then
    if strStrip req.s3Pfx = "" then (.error .s3PrefixMissing, [])
    else if ! validate_s3_prefix (strStrip req.s3Pfx) then (.error .invalidS3Prefix, [])
    else if req.bucketName = "" then (.error .bucketNameNotSet, [])
    else if !req.bucketExists then (.error .bucketNotFound, [])
    else finishLoop req
  else finishLoop req

/-- The filename stem the handler derives (os.path.splitext, first part). -/
def stemOf (f : ImageFile) : String := (splitext f.filename).1

/-- The lowercased original extension the handler derives. -/
def extOf (f : ImageFile) : String := strLower (splitext f.filename).2

/-- The ZIP entry names the local branch produces for one image, in order:
    the original entry followed by the six tier entries. -/
def imageZipNames (et : String) (f : ImageFile) : List String :=
  (stemOf f ++ "/original" ++ extOf f) ::
    sizes.map (fun s => stemOf f ++ "/" ++ s.1 ++ "." ++ et)

/-- An image the per-image validation accepts in local mode: decodable
    payload, stem in the conservative charset, extension in the
    passthrough set. -/
def validImage (f : ImageFile) : Bool :=
  f.decodable && validFilename (stemOf f) && isSupportedExt (extOf f)

/-- Pixel area of the tier derivative of a W x H source for square box b. -/
def tierArea (W H b : Nat) : Nat :=
  (resize_image { width := W, height := H } (b, b)).width *
    (resize_image { width := W, height := H } (b, b)).height

/-- The derivative areas of a fixed source across the declared tier order. -/
def tierAreas (W H : Nat) : List Nat :=
  sizes.map (fun s => tierArea W H s.2.1)

/-! ## Heap model for the per-tier copy discipline

The Python resize_image mutates the PIL image it is given (thumbnail is
in-place) and returns the same object.  main.py passes image.copy() for
every tier.  To settle the aliasing claim we model images as cells of a
heap: copy allocates a fresh cell, resize updates one cell in place. -/

/-- Reading a heap cell (out-of-range reads return a dummy image; the
    pipeline only uses valid references). -/
def heapGet (h : List PILImage) (r : Nat) : PILImage :=
  h.getD r { width := 0, height := 0 }

/-- Model of image.copy(): allocate a fresh cell holding the same pixels;
    returns the new heap and the new reference. -/
def heapCopy (h : List PILImage) (r : Nat) : List PILImage × Nat :=
  (h ++ [heapGet h r], h.length)

/-- Model of the in-place mutation performed by resize_image on the image
    object it is passed. -/
def heapResize (h : List PILImage) (r : Nat) (size : Nat × Nat) : List PILImage :=
  h.set r (resize_image (heapGet h r) size)

/-- The derivative loop of main.py lines 196-199 over a list of tiers:
    for each tier, resize_image(image.copy(), size) — copy then in-place
    resize of the copy — collecting each derivative's dimensions. -/
def resizeTiersHeap (src : Nat) :
    List (String × Nat × Nat) → List PILImage → List PILImage × List (Nat × Nat)
  | [], h => (h, [])
  | s :: rest, h =>
    let c := (heapCopy h src).2
    let h1 := (heapCopy h src).1
    let h2 := heapResize h1 c s.2
    let r := resizeTiersHeap src rest h2
    (r.1, ((heapGet h2 c).width, (heapGet h2 c).height) :: r.2)

/-! ## Concrete fixtures for counterexamples and witnesses -/

/-- A well-formed small upload. -/
def imgCat : ImageFile :=
  { filename := "cat.png", decodable := true, width := 10, height := 10 }

/-- An upload whose stem contains a character outside the charset. -/
def imgBadStem : ImageFile :=
  { filename := "bad!.png", decodable := true, width := 10, height := 10 }

/-- An upload with an extension outside the passthrough set. -/
def imgGif : ImageFile :=
  { filename := "photo.gif", decodable := true, width := 10, height := 10 }

/-- An upload with pathologically large decoded dimensions. -/
def imgHuge : ImageFile :=
  { filename := "huge.png", decodable := true,
    width := 1000000000, height := 1000000000 }

/-- Two uploads whose stems collide after extension stripping. -/
def imgA : ImageFile :=
  { filename := "a.png", decodable := true, width := 10, height := 10 }

/-- Second upload with the colliding stem but a different extension. -/
def imgAJpg : ImageFile :=
  { filename := "a.jpg", decodable := true, width := 10, height := 10 }

/-- An upload with a distinct stem. -/
def imgB : ImageFile :=
  { filename := "b.jpg", decodable := true, width := 10, height := 10 }

/-- Local-mode batch whose second image has an invalid stem. -/
def reqBadSecond : Request :=
  { images := [imgCat, imgBadStem], processingMode := "local",
    exportType := "webp", s3Pfx := "", bucketName := "", bucketExists := false }

/-- Aws-mode request against an existing bucket whose name violates the
    bucket-name pattern. -/
def reqBadBucketName : Request :=
  { images := [imgCat], processingMode := "aws", exportType := "webp",
    s3Pfx := "assets", bucketName := "My_Bucket", bucketExists := true }

/-- Aws-mode request persisting an original with a non-passthrough
    extension. -/
def reqGifAws : Request :=
  { images := [imgGif], processingMode := "aws", exportType := "webp",
    s3Pfx := "assets", bucketName := "mybucket", bucketExists := true }

/-- Local-mode batch with two images whose stems collide. -/
def reqDupStems : Request :=
  { images := [imgA, imgAJpg], processingMode := "local", exportType := "webp",
    s3Pfx := "", bucketName := "", bucketExists := false }

/-- Local-mode batch with two images with distinct stems. -/
def reqDistinctStems : Request :=
  { images := [imgA, imgB], processingMode := "local", exportType := "webp",
    s3Pfx := "", bucketName := "", bucketExists := false }

/-- Local-mode request whose single image is pathologically large. -/
def reqHuge : Request :=
  { images := [imgHuge], processingMode := "local", exportType := "webp",
    s3Pfx := "", bucketName := "", bucketExists := false }

/-! ## Resize lemmas -/

/-- Floor commutes with binary min on the rationals. -/
theorem natFloor_min (a b : ℚ) : ⌊min a b⌋₊ = min ⌊a⌋₊ ⌊b⌋₊ := by
  rcases le_total a b with h | h
  · rw [min_eq_left h, min_eq_left (Nat.floor_mono h)]
  · rw [min_eq_right h, min_eq_right (Nat.floor_mono h)]

/-- The natural-number form of the thumbnail dimensions agrees with the
    verbatim rational floor formula of the spec. -/
theorem specThumbDims_eq (W H bw bh : Nat) (hW : 0 < W) (hH : 0 < H) :
    specThumbDims W H bw bh = thumbnailDims W H bw bh := by
  have hWQ : (0:ℚ) < (W:ℚ) := by exact_mod_cast hW
  have hHQ : (0:ℚ) < (H:ℚ) := by exact_mod_cast hH
  have hWmul : (W:ℚ) * ((bw:ℚ) / (W:ℚ)) = (bw:ℚ) := by
    field_simp
  have hWmul2 : (H:ℚ) * ((bw:ℚ) / (W:ℚ)) = ((H * bw : Nat) : ℚ) / (W:ℚ) := by
    push_cast; ring
  have hHmul : (H:ℚ) * ((bh:ℚ) / (H:ℚ)) = (bh:ℚ) := by
    field_simp
  have hHmul2 : (W:ℚ) * ((bh:ℚ) / (H:ℚ)) = ((W * bh : Nat) : ℚ) / (H:ℚ) := by
    push_cast; ring
  unfold specThumbDims thumbnailDims thumbScale
  by_cases hc : bw * H ≤ bh * W
  · have hdiv : ((bw:ℚ) / (W:ℚ)) ≤ ((bh:ℚ) / (H:ℚ)) := by
      rw [div_le_div_iff₀ hWQ hHQ]
      exact_mod_cast hc
    rw [if_pos hc, min_eq_left hdiv,
      mul_min_of_nonneg _ _ (le_of_lt hWQ), mul_min_of_nonneg _ _ (le_of_lt hHQ),
      mul_one, mul_one, natFloor_min, natFloor_min, hWmul, hWmul2,
      Nat.floor_natCast, Nat.floor_div_nat, Nat.floor_natCast]
    simp [← Nat.cast_mul, Nat.floor_natCast, min_comm]
  · have hdiv : ((bh:ℚ) / (H:ℚ)) ≤ ((bw:ℚ) / (W:ℚ)) := by
      rw [div_le_div_iff₀ hHQ hWQ]
      have := le_of_not_le hc
      exact_mod_cast this
    rw [if_neg hc, min_eq_right hdiv,
      mul_min_of_nonneg _ _ (le_of_lt hWQ), mul_min_of_nonneg _ _ (le_of_lt hHQ),
      mul_one, mul_one, natFloor_min, natFloor_min, hHmul, hHmul2,
      Nat.floor_natCast, Nat.floor_div_nat, Nat.floor_natCast]
    simp [← Nat.cast_mul, Nat.floor_natCast, min_comm]

/-- The thumbnail fits the bounding box and never upscales. -/
theorem thumbnailDims_le (W H bw bh : Nat) (hW : 0 < W) (hH : 0 < H) :
    (thumbnailDims W H bw bh).1 ≤ bw ∧ (thumbnailDims W H bw bh).1 ≤ W ∧
    (thumbnailDims W H bw bh).2 ≤ bh ∧ (thumbnailDims W H bw bh).2 ≤ H := by
  unfold thumbnailDims
  by_cases hc : bw * H ≤ bh * W
  · rw [if_pos hc]
    refine ⟨min_le_right _ _, min_le_left _ _, ?_, min_le_left _ _⟩
    refine le_trans (min_le_right _ _) ?_
    calc H * bw / W ≤ bh * W / W := by
          exact Nat.div_le_div_right (by rw [Nat.mul_comm]; exact hc)
      _ = bh := Nat.mul_div_cancel bh hW
  · rw [if_neg hc]
    refine ⟨?_, min_le_left _ _, min_le_right _ _, min_le_left _ _⟩
    refine le_trans (min_le_right _ _) ?_
    calc W * bh / H ≤ bw * H / H := by
          refine Nat.div_le_div_right ?_
          rw [Nat.mul_comm W bh]
          exact le_of_lt (Nat.lt_of_not_le hc)
      _ = bw := Nat.mul_div_cancel bw hH

/-- For square boxes, both thumbnail dimensions grow (weakly) with the
    box size. -/
theorem thumbnailDims_sq_mono (W H b b' : Nat) (hb : 0 < b) (hbb : b ≤ b') :
    (thumbnailDims W H b b).1 ≤ (thumbnailDims W H b' b').1 ∧
    (thumbnailDims W H b b).2 ≤ (thumbnailDims W H b' b').2 := by
  have hb' : 0 < b' := lt_of_lt_of_le hb hbb
  unfold thumbnailDims
  by_cases hc : H ≤ W
  · rw [if_pos (Nat.mul_le_mul_left b hc), if_pos (Nat.mul_le_mul_left b' hc)]
    exact ⟨min_le_min le_rfl hbb,
      min_le_min le_rfl (Nat.div_le_div_right (Nat.mul_le_mul_left H hbb))⟩
  · have h2 : ¬ b * H ≤ b * W := fun h => hc (Nat.le_of_mul_le_mul_left h hb)
    have h2' : ¬ b' * H ≤ b' * W := fun h => hc (Nat.le_of_mul_le_mul_left h hb')
    rw [if_neg h2, if_neg h2']
    exact ⟨min_le_min le_rfl (Nat.div_le_div_right (Nat.mul_le_mul_left W hbb)),
      min_le_min le_rfl hbb⟩

/-- Derivative pixel area grows (weakly) with the square box size. -/
theorem tierArea_mono (W H b b' : Nat) (hb : 0 < b) (hbb : b ≤ b') :
    tierArea W H b ≤ tierArea W H b' := by
  have h := thumbnailDims_sq_mono W H b b' hb hbb
  unfold tierArea resize_image
  exact Nat.mul_le_mul h.1 h.2

/-- C2: for every decoded source and every tier bounding box, the
    derivative dimensions follow the thumbnail formula floor(orig * scale)
    with scale = min(boxW/origW, boxH/origH) capped at 1 (the dimensions
    computed by resize_image agree with the verbatim rational spec
    formula), the derivative never exceeds the bounding box, it is never
    upscaled beyond the source dimensions, and a 1000x500 source with box
    (300,300) yields 300x150. -/
theorem c2_resize_dims (W H bw bh : Nat) (hW : 0 < W) (hH : 0 < H) :
    ((resize_image { width := W, height := H } (bw, bh)).width,
      (resize_image { width := W, height := H } (bw, bh)).height) =
        specThumbDims W H bw bh ∧
    (resize_image { width := W, height := H } (bw, bh)).width ≤ bw ∧
    (resize_image { width := W, height := H } (bw, bh)).width ≤ W ∧
    (resize_image { width := W, height := H } (bw, bh)).height ≤ bh ∧
    (resize_image { width := W, height := H } (bw, bh)).height ≤ H ∧
    resize_image { width := 1000, height := 500 } (300, 300) =
      { width := 300, height := 150 } := by
  have hb := thumbnailDims_le W H bw bh hW hH
  refine ⟨?_, hb.1, hb.2.1, hb.2.2.1, hb.2.2.2, by decide⟩
  rw [specThumbDims_eq W H bw bh hW hH]
  rfl

/-- Witness for c2_resize_dims at the concrete 1000x500 source with tier
    box (300,300). -/
theorem c2_resize_dims_witness :
    ((resize_image { width := 1000, height := 500 } (300, 300)).width,
      (resize_image { width := 1000, height := 500 } (300, 300)).height) =
        specThumbDims 1000 500 300 300 ∧
    (resize_image { width := 1000, height := 500 } (300, 300)).width ≤ 300 ∧
    (resize_image { width := 1000, height := 500 } (300, 300)).width ≤ 1000 ∧
    (resize_image { width := 1000, height := 500 } (300, 300)).height ≤ 300 ∧
    (resize_image { width := 1000, height := 500 } (300, 300)).height ≤ 500 ∧
    resize_image { width := 1000, height := 500 } (300, 300) =
      { width := 300, height := 150 } :=
  c2_resize_dims 1000 500 300 300 (by decide) (by decide)

/-- C8: for a fixed source image, derivative pixel area is monotonically
    non-decreasing across the declared tier order t, s, m, l, xl, xxl of
    the sizes table. -/
theorem c8_area_monotone (W H : Nat) :
    List.Chain' (· ≤ ·) (tierAreas W H) := by
  have h1 := tierArea_mono W H 100 300 (by norm_num) (by norm_num)
  have h2 := tierArea_mono W H 300 500 (by norm_num) (by norm_num)
  have h3 := tierArea_mono W H 500 800 (by norm_num) (by norm_num)
  have h4 := tierArea_mono W H 800 1000 (by norm_num) (by norm_num)
  have h5 := tierArea_mono W H 1000 1200 (by norm_num) (by norm_num)
  simp [tierAreas, sizes, List.chain'_cons]
  exact ⟨h1, h2, h3, h4, h5⟩

/-! ## C6: the oversized-input guard -/

/-- C6 counterexample: a 10^9 x 10^9 decoded source is processed without
    any error — the whole local-mode request succeeds, all seven writes
    are issued, and resize_image returns normally — so no configured
    maximum dimension triggers an oversized-input failure. -/
theorem c6_counterexample :
    (pushup reqHuge).1 = .ok .zipArchive ∧
    (pushup reqHuge).2.length = 7 ∧
    resize_image { width := 1000000000, height := 1000000000 } (100, 100) =
      { width := 100, height := 100 } := by
  refine ⟨by rfl, by rfl, by decide⟩

/-- C6 amended: the code has no oversized-input guard; per-image
    processing succeeds in both modes for any decoded dimensions whenever
    the payload decodes, the stem is valid and (for the local branch) the
    extension is in the passthrough set — the decoded width and height are
    never consulted by any validation. -/
theorem c6_no_size_guard (et pfx bkt : String) (f : ImageFile)
    (hf : validImage f = true) :
    (processImage "local" et pfx bkt f).isOk = true ∧
    (processImage "aws" et pfx bkt f).isOk = true := by
  simp only [validImage, Bool.and_eq_true] at hf
  obtain ⟨⟨hd, hn⟩, hx⟩ := hf
  simp only [stemOf, extOf] at hn hx
  constructor
  · simp [processImage, hd, hn, hx, Except.isOk, Except.toBool]
  · simp [processImage, hd, hn, Except.isOk, Except.toBool]

/-- Witness for c6_no_size_guard at the pathologically large image. -/
theorem c6_no_size_guard_witness :
    validImage imgHuge = true ∧
    (processImage "local" "webp" "" "" imgHuge).isOk = true ∧
    (processImage "aws" "webp" "" "" imgHuge).isOk = true :=
  ⟨by decide, (c6_no_size_guard "webp" "" "" imgHuge (by decide)).1,
    (c6_no_size_guard "webp" "" "" imgHuge (by decide)).2⟩

/-! ## C10: the per-tier copy discipline -/

/-- Appending a fresh cell leaves existing cells readable unchanged. -/
theorem heapGet_append_lt (h : List PILImage) (x : PILImage) (i : Nat)
    (hi : i < h.length) : heapGet (h ++ [x]) i = heapGet h i := by
  simp [heapGet, List.getElem?_append, hi]

/-- Reading the freshly appended cell. -/
theorem heapGet_concat (h : List PILImage) (x : PILImage) :
    heapGet (h ++ [x]) h.length = x := by
  simp [heapGet, List.getD_append_right _ _ _ _ le_rfl]

/-- Writing one cell leaves the others unchanged. -/
theorem heapGet_set_ne (h : List PILImage) (i j : Nat) (y : PILImage)
    (hij : j ≠ i) : heapGet (h.set j y) i = heapGet h i := by
  simp [heapGet, List.getD_eq_getD_get?, List.get?_eq_getElem?,
    List.getElem?_set_ne hij]

/-- Reading back a written cell. -/
theorem heapGet_set_self (h : List PILImage) (j : Nat) (y : PILImage)
    (hj : j < h.length) : heapGet (h.set j y) j = y := by
  simp [heapGet, List.getD_eq_getD_get?, List.get?_eq_getElem?,
    List.getElem?_set_eq_of_lt _ hj]

/-- The derivative loop never touches the source cell, and every tier's
    derivative is resize_image applied to the original source pixels. -/
theorem resizeTiersHeap_spec (ts : List (String × Nat × Nat))
    (h : List PILImage) (src : Nat) (hsrc : src < h.length) :
    heapGet (resizeTiersHeap src ts h).1 src = heapGet h src ∧
    (resizeTiersHeap src ts h).2 = ts.map (fun s =>
      ((resize_image (heapGet h src) s.2).width,
        (resize_image (heapGet h src) s.2).height)) := by
  induction ts generalizing h with
  | nil => exact ⟨rfl, rfl⟩
  | cons s rest ih =>
    have hlen1 : (h ++ [heapGet h src]).length = h.length + 1 := by simp
    have hc1 : heapGet (h ++ [heapGet h src]) h.length = heapGet h src :=
      heapGet_concat h _
    have hget_src :
        heapGet (heapResize (h ++ [heapGet h src]) h.length s.2) src
          = heapGet h src := by
      unfold heapResize
      rw [heapGet_set_ne _ _ _ _ (Nat.ne_of_gt hsrc)]
      exact heapGet_append_lt h _ src hsrc
    have hget_c :
        heapGet (heapResize (h ++ [heapGet h src]) h.length s.2) h.length
          = resize_image (heapGet h src) s.2 := by
      unfold heapResize
      rw [hc1]
      refine heapGet_set_self _ _ _ ?_
      rw [hlen1]
      exact Nat.lt_succ_self _
    have hlen2 : src < (heapResize (h ++ [heapGet h src]) h.length s.2).length := by
      unfold heapResize
      rw [List.length_set, hlen1]
      exact Nat.lt_succ_of_lt hsrc
    obtain ⟨ih1, ih2⟩ := ih (heapResize (h ++ [heapGet h src]) h.length s.2) hlen2
    constructor
    · simp only [resizeTiersHeap, heapCopy]
      rw [ih1]
      exact hget_src
    · simp only [resizeTiersHeap, heapCopy, List.map_cons]
      rw [ih2]
      simp only [hget_src, hget_c]

/-- C10: resize_image mutates the image cell it is given, but the tier
    loop passes image.copy() for every tier, so after generating all six
    derivatives the source cell is unchanged and each tier's dimensions
    are resize_image of the original source — no tier's output depends on
    any other tier's output. -/
theorem c10_copy_per_tier (h : List PILImage) (src : Nat)
    (hsrc : src < h.length) :
    heapGet (resizeTiersHeap src sizes h).1 src = heapGet h src ∧
    (resizeTiersHeap src sizes h).2 = sizes.map (fun s =>
      ((resize_image (heapGet h src) s.2).width,
        (resize_image (heapGet h src) s.2).height)) :=
  resizeTiersHeap_spec sizes h src hsrc

/-- Witness for c10_copy_per_tier on a one-cell heap holding a 1000x500
    source. -/
theorem c10_copy_per_tier_witness :
    heapGet (resizeTiersHeap 0 sizes [{ width := 1000, height := 500 }]).1 0
        = heapGet [{ width := 1000, height := 500 }] 0 ∧
    (resizeTiersHeap 0 sizes [{ width := 1000, height := 500 }]).2 =
      sizes.map (fun s =>
        ((resize_image (heapGet [{ width := 1000, height := 500 }] 0) s.2).width,
          (resize_image (heapGet [{ width := 1000, height := 500 }] 0) s.2).height)) :=
  c10_copy_per_tier [{ width := 1000, height := 500 }] 0 (by decide)

/-! ## Pipeline structural lemmas -/

/-- Anatomy of a successful per-image run: the image was decodable with a
    valid stem, and the writes are exactly the local ZIP block (with the
    extension check passed) or the aws S3 block. -/
theorem processImage_ok_shape (mode et pfx bkt : String) (f : ImageFile)
    (ws : List SinkWrite)
    (h : processImage mode et pfx bkt f = .ok ws) :
    f.decodable = true ∧ validFilename (stemOf f) = true ∧
    ((mode = "local" ∧ isSupportedExt (extOf f) = true ∧
        ws = SinkWrite.zipOriginal (stemOf f) (extOf f) ::
          sizes.map (fun s => SinkWrite.zipResized (stemOf f) s.1 et)) ∨
     (¬ mode = "local" ∧
        ws = SinkWrite.s3Original bkt pfx (stemOf f) (extOf f) et ::
          sizes.map (fun s => SinkWrite.s3Resized bkt pfx (stemOf f) s.1 et))) := by
  simp only [processImage] at h
  split_ifs at h with h1 h2 h3 h4
  · injection h with hws
    refine ⟨by simpa using h1, by simpa [stemOf] using h2,
      .inl ⟨h3, by simpa [extOf] using h4, hws.symm⟩⟩
  · injection h with hws
    refine ⟨by simpa using h1, by simpa [stemOf] using h2,
      .inr ⟨h3, hws.symm⟩⟩

/-- Writes of the local block are never S3 puts. -/
theorem mem_local_writes_zip (stem ext et : String) (w : SinkWrite)
    (hw : w ∈ SinkWrite.zipOriginal stem ext ::
      sizes.map (fun s => SinkWrite.zipResized stem s.1 et)) :
    w.isS3Put = false := by
  rcases List.mem_cons.mp hw with h | h
  · subst h; rfl
  · obtain ⟨s, _, rfl⟩ := List.mem_map.mp h
    rfl

/-- Every write of the batch loop belongs to a successful per-image run of
    some image of the list. -/
theorem processLoop_mem (mode et pfx bkt : String) (l : List ImageFile)
    (w : SinkWrite) (hw : w ∈ (processLoop mode et pfx bkt l).2) :
    ∃ f ∈ l, ∃ ws, processImage mode et pfx bkt f = .ok ws ∧ w ∈ ws := by
  induction l with
  | nil => simp [processLoop] at hw
  | cons f rest ih =>
    cases heq : processImage mode et pfx bkt f with
    | error e =>
      simp only [processLoop, heq] at hw
      exact absurd hw (List.not_mem_nil w)
    | ok ws =>
      simp only [processLoop, heq] at hw
      rcases List.mem_append.mp hw with h | h
      · exact ⟨f, by simp, ws, heq, h⟩
      · obtain ⟨g, hg, ws', hok, hmem⟩ := ih h
        exact ⟨g, by simp [hg], ws', hok, hmem⟩

/-- The second component of finishLoop is always the loop trace. -/
theorem finishLoop_snd (req : Request) :
    (finishLoop req).2 =
      (processLoop (modeOf req) (etOf req) (pfxOf req)
        req.bucketName req.images).2 := by
  simp only [finishLoop]
  split <;> rfl

/-- Either the handler rejected the request before the loop (no writes),
    or all global and aws prechecks passed and the handler ran the loop. -/
theorem pushup_shape (req : Request) :
    (pushup req).2 = [] ∨
    ((modeOf req = "local" ∨ modeOf req = "aws") ∧
     isValidExport (strLower req.exportType) = true ∧
     (modeOf req = "aws" →
       strStrip req.s3Pfx ≠ "" ∧
       validate_s3_prefix (strStrip req.s3Pfx) = true ∧
       req.bucketName ≠ "" ∧ req.bucketExists = true) ∧
     pushup req = finishLoop req) := by
  unfold pushup
  split_ifs with h1 h2 h3 h4 h5 h6 h7 h8
  · exact .inl rfl
  · exact .inl rfl
  · exact .inl rfl
  · exact .inl rfl
  · exact .inl rfl
  · exact .inl rfl
  · exact .inl rfl
  · refine .inr ⟨.inr h4, ?_, ?_, rfl⟩
    · simpa using h3
    · intro _
      refine ⟨by simpa using h5, by simpa using h6, by simpa using h7,
        by simpa using h8⟩
  · refine .inr ⟨?_, by simpa using h3, fun hm => absurd hm h4, rfl⟩
    have h2' : (modeOf req == "local" || modeOf req == "aws") = true := by
      rcases Bool.eq_false_or_eq_true (modeOf req == "local" || modeOf req == "aws") with hb | hb
      · exact hb
      · exact absurd (by simp [hb]) h2
    rcases Bool.or_eq_true_iff.mp h2' with h | h
    · exact .inl (by simpa using h)
    · exact .inr (by simpa using h)

/-- Under passing global checks the handler runs the loop. -/
theorem pushup_run (req : Request)
    (hne : req.images ≠ [])
    (hmode : modeOf req = "local" ∨ modeOf req = "aws")
    (hexp : isValidExport (strLower req.exportType) = true)
    (haws : modeOf req = "aws" →
      strStrip req.s3Pfx ≠ "" ∧
      validate_s3_prefix (strStrip req.s3Pfx) = true ∧
      req.bucketName ≠ "" ∧ req.bucketExists = true) :
    pushup req = finishLoop req := by
  unfold pushup
  split_ifs with h1 h2 h3 h4 h5 h6 h7 h8
  · exact absurd (List.isEmpty_iff.mp h1) hne
  · exfalso
    rcases hmode with hm | hm <;> rw [hm] at h2 <;> exact absurd h2 (by decide)
  · exact absurd hexp (by simpa using h3)
  · exact absurd (haws h4).1 (by simpa using h5)
  · exact absurd (haws h4).2.1 (by simpa using h6)
  · exact absurd (haws h4).2.2.1 (by simpa using h7)
  · exact absurd (haws h4).2.2.2 (by simpa using h8)
  · rfl
  · rfl

/-- A validation failure at one image of the batch aborts the loop there:
    the loop result is that error, and the trace is exactly the writes of
    the images preceding it. -/
theorem processLoop_append_error (mode et pfx bkt : String)
    (pre rest : List ImageFile) (bad : ImageFile) (e : ApiError)
    (hpre : ∀ f ∈ pre, (processImage mode et pfx bkt f).isOk = true)
    (hbad : processImage mode et pfx bkt bad = .error e) :
    processLoop mode et pfx bkt (pre ++ bad :: rest) =
      (.error e, (processLoop mode et pfx bkt pre).2) := by
  induction pre with
  | nil => simp [processLoop, hbad]
  | cons f pre' ih =>
    have hf := hpre f (by simp)
    cases heq : processImage mode et pfx bkt f with
    | error e' => simp [heq, Except.isOk, Except.toBool] at hf
    | ok ws =>
      have ih' := ih (fun g hg => hpre g (by simp [hg]))
      simp [List.cons_append, processLoop, heq, List.append_eq, ih']

/-! ## C1: batch-wide effect of a validation failure -/

/-- C1 counterexample: in a local-mode batch whose second image has an
    invalid stem, the request fails with the validation error, yet all
    seven ZIP entries of the first image were already written to the sink
    before the failure. -/
theorem c1_counterexample :
    (pushup reqBadSecond).1 = .error (.invalidFilename ("bad!")) ∧
    (pushup reqBadSecond).2 =
      [SinkWrite.zipOriginal ("cat") (".png"),
       SinkWrite.zipResized ("cat") ("t") ("webp"),
       SinkWrite.zipResized ("cat") ("s") ("webp"),
       SinkWrite.zipResized ("cat") ("m") ("webp"),
       SinkWrite.zipResized ("cat") ("l") ("webp"),
       SinkWrite.zipResized ("cat") ("xl") ("webp"),
       SinkWrite.zipResized ("cat") ("xxl") ("webp")] := by
  exact ⟨by rfl, by rfl⟩

/-- C1 amended: a per-image validation failure (invalid stem, undecodable
    payload, or unsupported original extension) fails the request with
    that error and prevents every write for the failing image and for all
    images after it; the writes already issued for the images before it
    remain the entire trace (in local mode the archive is nevertheless
    never returned). -/
theorem c1_batch_abort (req : Request) (pre rest : List ImageFile)
    (bad : ImageFile) (e : ApiError)
    (him : req.images = pre ++ bad :: rest)
    (hmode : modeOf req = "local" ∨ modeOf req = "aws")
    (hexp : isValidExport (strLower req.exportType) = true)
    (haws : modeOf req = "aws" →
      strStrip req.s3Pfx ≠ "" ∧
      validate_s3_prefix (strStrip req.s3Pfx) = true ∧
      req.bucketName ≠ "" ∧ req.bucketExists = true)
    (hpre : ∀ f ∈ pre,
      (processImage (modeOf req) (etOf req) (pfxOf req) req.bucketName f).isOk
        = true)
    (hbad : processImage (modeOf req) (etOf req) (pfxOf req) req.bucketName bad
      = .error e) :
    (pushup req).1 = .error e ∧
    (pushup req).2 =
      (processLoop (modeOf req) (etOf req) (pfxOf req)
        req.bucketName pre).2 := by
  have hne : req.images ≠ [] := by rw [him]; simp
  have hrun := pushup_run req hne hmode hexp haws
  have hloop := processLoop_append_error (modeOf req) (etOf req) (pfxOf req)
    req.bucketName pre rest bad e hpre hbad
  rw [hrun]
  simp [finishLoop, him, hloop]

/-- Witness for c1_batch_abort on the concrete two-image batch. -/
theorem c1_batch_abort_witness :
    (pushup reqBadSecond).1 = .error (.invalidFilename ("bad!")) ∧
    (pushup reqBadSecond).2 =
      (processLoop (modeOf reqBadSecond) (etOf reqBadSecond)
        (pfxOf reqBadSecond) reqBadSecond.bucketName [imgCat]).2 :=
  c1_batch_abort reqBadSecond [imgCat] [] imgBadStem
    (.invalidFilename ("bad!")) (by rfl) (by decide) (by decide)
    (by decide) (by decide) (by decide)

/-! ## C3: which prechecks guard the aws writes -/

/-- C3 counterexample: the bucket-name pattern check
    (validate_s3_bucket_name) never runs — with an existing bucket whose
    name violates the pattern, the aws request succeeds and an S3 put is
    issued, so a put precedes any successful bucket-name pattern check. -/
theorem c3_counterexample :
    validate_s3_bucket_name (reqBadBucketName.bucketName) = false ∧
    (pushup reqBadBucketName).1 = .ok .jsonOk ∧
    SinkWrite.s3Original ("My_Bucket") ("assets") ("cat") (".png") ("webp")
      ∈ (pushup reqBadBucketName).2 := by
  exact ⟨by rfl, by rfl, by decide⟩

/-- C3 amended: before any S3 put of a job, the mode is aws and the
    prefix presence check, the prefix pattern check, the bucket-name
    presence check and the bucket-existence check have all succeeded; the
    bucket-name pattern check of helpers.validate_s3_bucket_name is dead
    code and is not among them. -/
theorem c3_prechecks_before_puts (req : Request) (w : SinkWrite)
    (hw : w ∈ (pushup req).2) (hs3 : w.isS3Put = true) :
    modeOf req = "aws" ∧ strStrip req.s3Pfx ≠ "" ∧
    validate_s3_prefix (strStrip req.s3Pfx) = true ∧
    req.bucketName ≠ "" ∧ req.bucketExists = true := by
  rcases pushup_shape req with h0 | ⟨hmode, _, haws, heq⟩
  · rw [h0] at hw
    exact absurd hw (List.not_mem_nil w)
  · rw [heq, finishLoop_snd] at hw
    obtain ⟨f, _, ws, hok, hmem⟩ := processLoop_mem _ _ _ _ _ _ hw
    obtain ⟨_, _, hcase⟩ := processImage_ok_shape _ _ _ _ _ _ hok
    rcases hcase with ⟨_, _, hws⟩ | ⟨hnl, hws⟩
    · exfalso
      rw [hws] at hmem
      have hz := mem_local_writes_zip _ _ _ _ hmem
      rw [hz] at hs3
      exact Bool.noConfusion hs3
    · have hm : modeOf req = "aws" := by
        rcases hmode with hm | hm
        · exact absurd hm hnl
        · exact hm
      exact ⟨hm, (haws hm).1, (haws hm).2.1, (haws hm).2.2.1,
        (haws hm).2.2.2⟩

/-- Witness for c3_prechecks_before_puts on a concrete aws request. -/
theorem c3_prechecks_witness :
    modeOf reqBadBucketName = "aws" ∧ strStrip reqBadBucketName.s3Pfx ≠ "" ∧
    validate_s3_prefix (strStrip reqBadBucketName.s3Pfx) = true ∧
    reqBadBucketName.bucketName ≠ "" ∧ reqBadBucketName.bucketExists = true :=
  c3_prechecks_before_puts reqBadBucketName
    (SinkWrite.s3Original ("My_Bucket") ("assets") ("cat") (".png") ("webp"))
    (by decide) (by rfl)

/-! ## C5: the passthrough-extension check -/

/-- C5 counterexample: in aws mode no extension check runs — an original
    with a .gif extension is uploaded (re-encoded) under a key ending in
    original.gif even though .gif is outside the passthrough set. -/
theorem c5_counterexample :
    (pushup reqGifAws).1 = .ok .jsonOk ∧
    SinkWrite.s3Original ("mybucket") ("assets") ("photo") (".gif") ("webp")
      ∈ (pushup reqGifAws).2 ∧
    isSupportedExt (".gif") = false := by
  exact ⟨by rfl, by decide, by rfl⟩

/-- C5 amended: only the local (archive) branch checks the original's
    extension: every original entry written to the ZIP sink carries an
    extension from the passthrough set; the aws branch persists originals
    without any extension check. -/
theorem c5_zip_original_ext (req : Request) (st ex : String)
    (hw : SinkWrite.zipOriginal st ex ∈ (pushup req).2) :
    isSupportedExt ex = true := by
  rcases pushup_shape req with h0 | ⟨_, _, _, heq⟩
  · rw [h0] at hw
    exact absurd hw (List.not_mem_nil _)
  · rw [heq, finishLoop_snd] at hw
    obtain ⟨f, _, ws, hok, hmem⟩ := processLoop_mem _ _ _ _ _ _ hw
    obtain ⟨_, _, hcase⟩ := processImage_ok_shape _ _ _ _ _ _ hok
    rcases hcase with ⟨_, hx, hws⟩ | ⟨_, hws⟩
    · rw [hws] at hmem
      rcases List.mem_cons.mp hmem with hh | hh
      · injection hh with h1 h2
        rw [h2]
        exact hx
      · exfalso
        obtain ⟨s, _, habs⟩ := List.mem_map.mp hh
        exact SinkWrite.noConfusion habs
    · exfalso
      rw [hws] at hmem
      rcases List.mem_cons.mp hmem with hh | hh
      · exact SinkWrite.noConfusion hh
      · obtain ⟨s, _, habs⟩ := List.mem_map.mp hh
        exact SinkWrite.noConfusion habs

/-- Witness for c5_zip_original_ext on the concrete local batch. -/
theorem c5_zip_original_ext_witness : isSupportedExt (".png") = true :=
  c5_zip_original_ext reqBadSecond ("cat") (".png") (by decide)

/-! ## C9: how the aws branch persists the original -/

/-- C9: every original persisted to S3 is stored under the key
    prefix/stem/original.(original extension) while its bytes are
    re-encoded in the normalized export format and its ContentType is
    image/(export format); the raw original bytes are never uploaded, so
    the key extension can disagree with the stored encoding. -/
theorem c9_original_reencoded (req : Request) (b p st ex fm : String)
    (hw : SinkWrite.s3Original b p st ex fm ∈ (pushup req).2) :
    fm = etOf req ∧ b = req.bucketName ∧ p = strStrip req.s3Pfx ∧
    (SinkWrite.s3Original b p st ex fm).s3ContentType =
      some ("image/" ++ etOf req) ∧
    (SinkWrite.s3Original b p st ex fm).s3Key =
      some (posixJoin3 (strStrip req.s3Pfx) st ("original" ++ ex)) := by
  rcases pushup_shape req with h0 | ⟨hmode, _, haws, heq⟩
  · rw [h0] at hw
    exact absurd hw (List.not_mem_nil _)
  · rw [heq, finishLoop_snd] at hw
    obtain ⟨f, _, ws, hok, hmem⟩ := processLoop_mem _ _ _ _ _ _ hw
    obtain ⟨_, _, hcase⟩ := processImage_ok_shape _ _ _ _ _ _ hok
    rcases hcase with ⟨_, _, hws⟩ | ⟨hnl, hws⟩
    · exfalso
      rw [hws] at hmem
      rcases List.mem_cons.mp hmem with hh | hh
      · exact SinkWrite.noConfusion hh
      · obtain ⟨s, _, habs⟩ := List.mem_map.mp hh
        exact SinkWrite.noConfusion habs
    · have hm : modeOf req = "aws" := by
        rcases hmode with hm | hm
        · exact absurd hm hnl
        · exact hm
      have hpfx : pfxOf req = strStrip req.s3Pfx := by
        unfold pfxOf
        rw [if_pos hm]
      rw [hws] at hmem
      rcases List.mem_cons.mp hmem with hh | hh
      · injection hh with hb hp hst hex hfm
        refine ⟨hfm, hb, hp.trans hpfx, ?_, ?_⟩
        · simp [SinkWrite.s3ContentType, hfm]
        · simp [SinkWrite.s3Key, hp, hpfx]
      · exfalso
        obtain ⟨s, _, habs⟩ := List.mem_map.mp hh
        exact SinkWrite.noConfusion habs

/-- Witness for c9_original_reencoded: a .gif original exported as webp is
    stored under original.gif with webp-encoded bytes and ContentType
    image/webp. -/
theorem c9_original_reencoded_witness :
    "webp" = etOf reqGifAws ∧ "mybucket" = reqGifAws.bucketName ∧
    "assets" = strStrip reqGifAws.s3Pfx ∧
    (SinkWrite.s3Original ("mybucket") ("assets") ("photo") (".gif")
        ("webp")).s3ContentType = some ("image/" ++ etOf reqGifAws) ∧
    (SinkWrite.s3Original ("mybucket") ("assets") ("photo") (".gif")
        ("webp")).s3Key =
      some (posixJoin3 (strStrip reqGifAws.s3Pfx) ("photo")
        ("original" ++ ".gif")) :=
  c9_original_reencoded reqGifAws ("mybucket") ("assets") ("photo") (".gif")
    ("webp") (by decide)

/-! ## C4: the encoding parameter tables -/

/-- C4 counterexample: the code's save parameters disagree with the
    spec's static table — jpeg gets no quality/progressive/optimize
    parameters and png gets no compression parameters. -/
theorem c4_counterexample :
    local_save_kwargs ("jpeg") ≠ specEncodingParams ("jpeg") ∧
    s3_save_kwargs ("png") ≠ specEncodingParams ("png") := by
  exact ⟨by decide, by decide⟩

/-- C4 amended: both sinks invoke the encoder with identical parameters,
    namely lossless=True for webp and no explicit parameters for png and
    jpeg (library defaults). -/
theorem c4_kwargs_identical (fmt : String) :
    local_save_kwargs fmt = s3_save_kwargs fmt ∧
    local_save_kwargs ("webp") = [("lossless", "True")] ∧
    local_save_kwargs ("jpeg") = [] ∧
    local_save_kwargs ("png") = [] := by
  exact ⟨rfl, by rfl, by rfl, by rfl⟩


/-! ## C7: archive layout -/

/-- String equality from equal character data. -/
theorem stringExt (a b : String) (h : a.data = b.data) : a = b := by
  cases a
  cases b
  exact congrArg String.mk h

/-- A valid stem contains no slash. -/
theorem validFilename_no_slash (s : String) (h : validFilename s = true) :
    ('/' : Char) ∉ s.data := by
  simp only [validFilename, Bool.and_eq_true, List.all_eq_true] at h
  intro hmem
  exact absurd (h.2 _ hmem) (by decide)

/-- Splitting at the first slash is unambiguous when neither prefix
    contains one. -/
theorem append_cons_slash_inj (r1 r2 : List Char) :
    ∀ (a b : List Char), ('/' : Char) ∉ a → ('/' : Char) ∉ b →
      a ++ '/' :: r1 = b ++ '/' :: r2 → a = b ∧ r1 = r2 := by
  intro a
  induction a with
  | nil =>
    intro b ha hb h
    cases b with
    | nil =>
      injection h with h1 h2
      exact ⟨rfl, h2⟩
    | cons y ys =>
      injection h with h1 h2
      exact absurd (by rw [← h1]; exact List.mem_cons_self _ _) hb
  | cons x xs ih =>
    intro b ha hb h
    cases b with
    | nil =>
      injection h with h1 h2
      exact absurd (by rw [h1]; exact List.mem_cons_self _ _) ha
    | cons y ys =>
      injection h with h1 h2
      have hxs : ('/' : Char) ∉ xs := fun hm => ha (List.mem_cons_of_mem _ hm)
      have hys : ('/' : Char) ∉ ys := fun hm => hb (List.mem_cons_of_mem _ hm)
      obtain ⟨e1, e2⟩ := ih ys hxs hys h2
      exact ⟨by rw [h1, e1], e2⟩

/-- Entry names split unambiguously at the slash after the stem. -/
theorem stem_slash_inj (s1 s2 u v : String)
    (h1 : ('/' : Char) ∉ s1.data) (h2 : ('/' : Char) ∉ s2.data)
    (h : s1 ++ "/" ++ u = s2 ++ "/" ++ v) : s1 = s2 ∧ u = v := by
  have hslash : ("/" : String).data = ['/'] := rfl
  have hd : s1.data ++ '/' :: u.data = s2.data ++ '/' :: v.data := by
    have hc := congrArg String.data h
    simpa [String.data_append, hslash] using hc
  obtain ⟨e1, e2⟩ := append_cons_slash_inj u.data v.data s1.data s2.data h1 h2 hd
  exact ⟨stringExt _ _ e1, stringExt _ _ e2⟩

/-- The per-image entry names are the per-image suffixes prefixed with
    stem/. -/
theorem imageZipNames_eq (et : String) (f : ImageFile) :
    imageZipNames et f = (("original" ++ extOf f) ::
      sizes.map (fun s => s.1 ++ "." ++ et)).map
        (fun suf => stemOf f ++ "/" ++ suf) := by
  have ho : ("/original" : String) = "/" ++ "original" := rfl
  simp only [imageZipNames, sizes, List.map_cons, List.map_nil, String.append_assoc]
  rw [ho, String.append_assoc]

/-- The normalized export type is one of the three encoder formats. -/
theorem etOf_cases (req : Request)
    (hexp : isValidExport (strLower req.exportType) = true) :
    etOf req = "png" ∨ etOf req = "webp" ∨ etOf req = "jpeg" := by
  have h : ((strLower req.exportType = "png" ∨ strLower req.exportType = "webp") ∨
      strLower req.exportType = "jpg") ∨ strLower req.exportType = "jpeg" := by
    simpa [isValidExport, Bool.or_eq_true] using hexp
  simp only [etOf]
  rcases h with ((h | h) | h) | h <;> rw [h] <;> decide

/-- The seven per-image entry names are distinct. -/
theorem imageZipNames_nodup (et : String) (f : ImageFile)
    (hx : isSupportedExt (extOf f) = true)
    (he : et = "png" ∨ et = "webp" ∨ et = "jpeg") :
    (imageZipNames et f).Nodup := by
  rw [imageZipNames_eq]
  refine List.Nodup.map ?_ ?_
  · intro a b hab
    have hd := congrArg String.data hab
    simp only [String.data_append] at hd
    exact stringExt _ _ (List.append_cancel_left hd)
  · have hx' : ((extOf f = ".png" ∨ extOf f = ".webp") ∨ extOf f = ".jpg") ∨
        extOf f = ".jpeg" := by
      simpa [isSupportedExt, Bool.or_eq_true] using hx
    rcases hx' with ((h | h) | h) | h <;> rcases he with e | e | e <;>
      rw [h, e] <;> decide

/-- Per-image run of the local branch on a valid image, with the explicit
    write block. -/
theorem processImage_local_ok (et pfx bkt : String) (f : ImageFile)
    (hf : validImage f = true) :
    processImage "local" et pfx bkt f =
      .ok (SinkWrite.zipOriginal (stemOf f) (extOf f) ::
        sizes.map (fun s => SinkWrite.zipResized (stemOf f) s.1 et)) := by
  simp only [validImage, Bool.and_eq_true] at hf
  obtain ⟨⟨hd, hn⟩, hx⟩ := hf
  simp only [stemOf, extOf] at hn hx ⊢
  simp [processImage, hd, hn, hx]

/-- The local batch loop on an all-valid batch: success, with the
    concatenated per-image write blocks in input order. -/
theorem processLoop_local_ok (et pfx bkt : String) (l : List ImageFile)
    (h : ∀ f ∈ l, validImage f = true) :
    processLoop "local" et pfx bkt l =
      (.ok (), l.bind (fun f =>
        SinkWrite.zipOriginal (stemOf f) (extOf f) ::
          sizes.map (fun s => SinkWrite.zipResized (stemOf f) s.1 et))) := by
  induction l with
  | nil => rfl
  | cons f rest ih =>
    have hok := processImage_local_ok et pfx bkt f (h f (by simp))
    have ih' := ih (fun g hg => h g (by simp [hg]))
    simp [processLoop, hok, ih', List.cons_bind]

/-- The ZIP names of the concatenated blocks are the per-image name
    lists, concatenated. -/
theorem zipNames_blocks (et : String) (l : List ImageFile) :
    zipNames (l.bind (fun f =>
      SinkWrite.zipOriginal (stemOf f) (extOf f) ::
        sizes.map (fun s => SinkWrite.zipResized (stemOf f) s.1 et))) =
      l.bind (imageZipNames et) := by
  induction l with
  | nil => rfl
  | cons f rest ih =>
    simp only [List.cons_bind, zipNames, List.filterMap_append] at ih ⊢
    rw [ih]
    simp [sizes, SinkWrite.zipEntryName, imageZipNames]

/-- Seven names per image. -/
theorem imageZipNames_length (et : String) (f : ImageFile) :
    (imageZipNames et f).length = 7 := by
  simp [imageZipNames, sizes]

/-- Total name count of a batch. -/
theorem bind_imageZipNames_length (et : String) (l : List ImageFile) :
    (l.bind (imageZipNames et)).length = 7 * l.length := by
  induction l with
  | nil => rfl
  | cons f rest ih =>
    simp only [List.cons_bind, List.length_append, ih, imageZipNames_length,
      List.length_cons]
    ring

/-- C7 counterexample: two images whose stems collide after extension
    stripping produce a successful archive with 14 entries but duplicate
    entry names, so entry names are not always unique within the
    archive. -/
theorem c7_counterexample :
    (pushup reqDupStems).1 = .ok .zipArchive ∧
    (zipNames (pushup reqDupStems).2).length = 14 ∧
    ¬ (zipNames (pushup reqDupStems).2).Nodup := by
  exact ⟨by rfl, by rfl, by decide⟩

/-- C7 amended: in local mode, a successful batch of N valid images whose
    stems are pairwise distinct yields exactly the archive layout: the
    entry-name list is the concatenation, in input order, of each image's
    stem/original.(ext) entry followed by its six stem/(tier).(export)
    entries — 7*N names in total, all unique.  (Uniqueness needs the
    distinct-stems proviso: duplicate stems give duplicate entry names, as
    the counterexample shows.) -/
theorem c7_archive_layout (req : Request)
    (hmode : modeOf req = "local")
    (hne : req.images ≠ [])
    (hexp : isValidExport (strLower req.exportType) = true)
    (hval : ∀ f ∈ req.images, validImage f = true)
    (hstems : (req.images.map stemOf).Nodup) :
    (pushup req).1 = .ok .zipArchive ∧
    zipNames (pushup req).2 = req.images.bind (imageZipNames (etOf req)) ∧
    (zipNames (pushup req).2).length = 7 * req.images.length ∧
    (zipNames (pushup req).2).Nodup := by
  have haws : modeOf req = "aws" →
      strStrip req.s3Pfx ≠ "" ∧
      validate_s3_prefix (strStrip req.s3Pfx) = true ∧
      req.bucketName ≠ "" ∧ req.bucketExists = true := by
    intro hm
    rw [hmode] at hm
    exact absurd hm (by decide)
  have hrun := pushup_run req hne (.inl hmode) hexp haws
  have hloop := processLoop_local_ok (etOf req) (pfxOf req) req.bucketName
    req.images hval
  have htrace : (pushup req).2 = req.images.bind (fun f =>
      SinkWrite.zipOriginal (stemOf f) (extOf f) ::
        sizes.map (fun s => SinkWrite.zipResized (stemOf f) s.1 (etOf req))) := by
    rw [hrun, finishLoop_snd, hmode, hloop]
  have hfst : (pushup req).1 = .ok .zipArchive := by
    rw [hrun]
    simp only [finishLoop, hmode, hloop]
    simp
  have hnames : zipNames (pushup req).2 =
      req.images.bind (imageZipNames (etOf req)) := by
    rw [htrace, zipNames_blocks]
  refine ⟨hfst, hnames, by rw [hnames, bind_imageZipNames_length], ?_⟩
  rw [hnames]
  rw [List.nodup_bind]
  constructor
  · intro f hf
    exact imageZipNames_nodup (etOf req) f
      (by
        have := hval f hf
        simp only [validImage, Bool.and_eq_true] at this
        exact this.2)
      (etOf_cases req hexp)
  · have hpw : req.images.Pairwise (fun a b => stemOf a ≠ stemOf b) := by
      rw [List.Nodup, List.pairwise_map] at hstems
      exact hstems
    refine hpw.imp_of_mem ?_
    intro a b ha hb hne2
    intro x hxa hxb
    rw [imageZipNames_eq] at hxa hxb
    obtain ⟨sa, _, rfl⟩ := List.mem_map.mp hxa
    obtain ⟨sb, _, hxeq⟩ := List.mem_map.mp hxb
    have hsa : ('/' : Char) ∉ (stemOf a).data := by
      have := hval a ha
      simp only [validImage, Bool.and_eq_true] at this
      exact validFilename_no_slash _ this.1.2
    have hsb : ('/' : Char) ∉ (stemOf b).data := by
      have := hval b hb
      simp only [validImage, Bool.and_eq_true] at this
      exact validFilename_no_slash _ this.1.2
    exact hne2 ((stem_slash_inj _ _ _ _ hsb hsa hxeq).1.symm)

/-- Witness for c7_archive_layout on a two-image batch with distinct
    stems. -/
theorem c7_archive_layout_witness :
    (pushup reqDistinctStems).1 = .ok .zipArchive ∧
    zipNames (pushup reqDistinctStems).2 =
      reqDistinctStems.images.bind (imageZipNames (etOf reqDistinctStems)) ∧
    (zipNames (pushup reqDistinctStems).2).length =
      7 * reqDistinctStems.images.length ∧
    (zipNames (pushup reqDistinctStems).2).Nodup :=
  c7_archive_layout reqDistinctStems (by decide) (by decide) (by decide)
    (by decide) (by decide)


end PixelPushup
